import Mathlib

/-!
# Verification of the `ItemFunction` declaration parser

A shallow embedding of `src/crates/syn-solidity/src/item/function.rs`:
the parse of a Solidity function *signature* declaration
(`function name(params) attributes [returns(..)];`, no body), along with
the derived queries `span`, `set_span`, `is_void`, `signature` and
`call_type`.

Tokens are modelled as a list of token trees (identifiers, nested
parenthesized/braced groups, commas, semicolons, attribute markers and
elementary type names), each carrying a source span modelled as a `Nat`.
Sub-grammar rules that live outside the provided source file
(identifier, parameter list, modifier set, returns clause, decorators)
are modelled from the specification, as noted on each definition.
-/

/-- A source span, modelled as an opaque numeric identifier. -/
abbrev Span := Nat

/-- A token tree of the input stream.  Parenthesized and braced groups
nest their content, as in `proc_macro2` token trees. -/
inductive Tok where
  /-- A leading outer attribute (decorator), treated as one opaque unit. -/
  | attrTok (sp : Span)
  /-- An identifier or keyword word token. -/
  | identTok (s : String) (sp : Span)
  /-- An elementary type name token, carrying its canonical text. -/
  | tyTok (s : String) (sp : Span)
  /-- A parenthesized group with nested content. -/
  | parenTok (inner : List Tok) (sp : Span)
  /-- A braced group (a body block) with nested content. -/
  | braceTok (inner : List Tok) (sp : Span)
  | commaTok (sp : Span)
  | semiTok (sp : Span)
deriving Repr

/-- The single syntax-error kind: a message plus the span it points at. -/
structure SynError where
  msg : String
  span : Span
deriving Repr, DecidableEq

/-- Span of a token. -/
def Tok.spanOf : Tok → Span
  | .attrTok sp => sp
  | .identTok _ sp => sp
  | .tyTok _ sp => sp
  | .parenTok _ sp => sp
  | .braceTok _ sp => sp
  | .commaTok sp => sp
  | .semiTok sp => sp

/-- The span `input.error(..)` attaches: the span of the next token
(`0` at end of input). -/
def spanOfHead : List Tok → Span
  | [] => 0
  | t :: _ => t.spanOf

/-- `input.peek(Brace)`: is the next token a braced group? -/
def headIsBrace : List Tok → Bool
  | .braceTok _ _ :: _ => true
  | _ => false

/-- A Solidity type, as much of the crate's `Type` enum as the claims
need: elementary types (carrying their canonical text) and the
`Type::Tuple` constructor, whose field records the element types in
order together with the trailing-separator flag of the underlying
punctuated sequence. -/
inductive SolType where
  | elementary (s : String)
  | tuple (types : List SolType) (trailing : Bool)
deriving Repr

/-- `SolTuple`: a parenthesized, comma-punctuated sequence of types;
`trailing` records whether the punctuated sequence ends in a separator
(`Punctuated::trailing_punct`). -/
structure SolTuple where
  types : List SolType
  trailing : Bool
deriving Repr

/-- An identifier with its span (`SolIdent`). -/
structure SolIdent where
  s : String
  sp : Span
deriving Repr, DecidableEq

/-- `SolIdent::span`. -/
def SolIdent.span (i : SolIdent) : Span := i.sp

/-- `SolIdent::set_span`: rewrites only the span, keeping the text. -/
def SolIdent.set_span (i : SolIdent) (sp : Span) : SolIdent := ⟨i.s, sp⟩

/-- A single typed parameter: a type together with its optional name.
Modelled from the spec: parameters are "(type, optional-name) pairs". -/
structure VarDecl where
  ty : SolType
  name : Option SolIdent
deriving Repr

/-- `Parameters<Token![,]>`: a comma-punctuated list of parameter
declarations; `trailing` records a trailing comma. -/
structure Parameters where
  list : List VarDecl
  trailing : Bool
deriving Repr

/-- The parsed modifier set (`FunctionAttributes`): the recognized
modifier keywords with their spans, in source order.
Modelled from the spec: the modifier set is opaque beyond
"exists and is syntactically valid". -/
structure FunctionAttributes where
  mods : List (String × Span)
deriving Repr, DecidableEq

/-- The `returns` clause (`Returns`): the `returns` keyword span, the
parenthesized group's span, and the punctuated list of return values. -/
structure Returns where
  returnsSp : Span
  parenSp : Span
  returns : Parameters
deriving Repr

/-- The parsed node `ItemFunction`, with one field per source field;
span-only source fields (`function_token`, `paren_token`, `semi_token`)
are carried as their spans, and `attrs` as the decorator spans. -/
structure ItemFunction where
  attrs : List Span
  functionSp : Span
  name : SolIdent
  parenSp : Span
  arguments : Parameters
  attributes : FunctionAttributes
  returns : Option Returns
  semiSp : Span
deriving Repr

/-- The result of a sub-parser: a value plus the remaining tokens, or a
syntax error. -/
abbrev ParseResult (α : Type) := Except SynError (α × List Tok)

/-- Modelled from the spec: the decorator-list rule
(`Attribute::parse_outer`) consumes zero or more leading decorators. -/
def parseOuterAttrs : List Tok → ParseResult (List Span)
  | .attrTok sp :: rest =>
    match parseOuterAttrs rest with
    | .ok (sps, r) => .ok (sp :: sps, r)
    | .error e => .error e
  | toks => .ok ([], toks)

/-- The fixed `function` keyword rule (`kw::function`): consumes an
identifier token spelled `function`. -/
def parseKwFunction (toks : List Tok) : ParseResult Span :=
  match toks with
  | .identTok s sp :: rest =>
    if s = "function" then .ok (sp, rest)
    else .error ⟨"expected function", sp⟩
  | _ => .error ⟨"expected function", spanOfHead toks⟩

/-- Modelled from the spec: the generic identifier rule
(`SolIdent::parse`) consumes one identifier token. -/
def SolIdent.parse (toks : List Tok) : ParseResult SolIdent :=
  match toks with
  | .identTok s sp :: rest => .ok (⟨s, sp⟩, rest)
  | _ => .error ⟨"expected identifier", spanOfHead toks⟩

/-- The `parenthesized!` macro: requires a parenthesized group next and
exposes its interior content; failure is a hard error. -/
def parseParen (toks : List Tok) : ParseResult (List Tok × Span) :=
  match toks with
  | .parenTok inner sp :: rest => .ok ((inner, sp), rest)
  | _ => .error ⟨"expected parentheses", spanOfHead toks⟩

/-- Modelled from the spec: the parameter-list rule parses the entire
interior of the parenthesized group as comma-delimited
(type, optional-name) pairs, with a trailing comma permitted. -/
def parseVarDecls : List Tok → Except SynError Parameters
  | [] => .ok ⟨[], false⟩
  | .tyTok s _ :: rest =>
    match rest with
    | [] => .ok ⟨[⟨.elementary s, none⟩], false⟩
    | .commaTok _ :: rest2 =>
      match rest2 with
      | [] => .ok ⟨[⟨.elementary s, none⟩], true⟩
      | _ =>
        match parseVarDecls rest2 with
        | .ok ps => .ok ⟨⟨.elementary s, none⟩ :: ps.list, ps.trailing⟩
        | .error e => .error e
    | .identTok n nsp :: rest2 =>
      match rest2 with
      | [] => .ok ⟨[⟨.elementary s, some ⟨n, nsp⟩⟩], false⟩
      | .commaTok _ :: rest3 =>
        match rest3 with
        | [] => .ok ⟨[⟨.elementary s, some ⟨n, nsp⟩⟩], true⟩
        | _ =>
          match parseVarDecls rest3 with
          | .ok ps => .ok ⟨⟨.elementary s, some ⟨n, nsp⟩⟩ :: ps.list, ps.trailing⟩
          | .error e => .error e
      | t :: _ => .error ⟨"expected comma", t.spanOf⟩
    | t :: _ => .error ⟨"expected comma", t.spanOf⟩
  | t :: _ => .error ⟨"expected type", t.spanOf⟩

/-- `Parameters::parse` over a group interior. -/
def Parameters.parse (inner : List Tok) : Except SynError Parameters :=
  parseVarDecls inner

/-- The modifier keywords the modifier-set rule recognizes.
Modelled from the spec: visibility, state-mutability and
override/virtual flags. -/
def modifierKws : List String :=
  ["external", "public", "internal", "private",
   "pure", "view", "payable", "virtual", "override"]

/-- Modelled from the spec: the modifier-set rule
(`FunctionAttributes::parse`) consumes zero or more modifier keywords;
it never fails. -/
def FunctionAttributes.parse : List Tok → ParseResult FunctionAttributes
  | .identTok s sp :: rest =>
    if s ∈ modifierKws then
      match FunctionAttributes.parse rest with
      | .ok (fa, r) => .ok (⟨(s, sp) :: fa.mods⟩, r)
      | .error e => .error e
    else .ok (⟨[]⟩, .identTok s sp :: rest)
  | toks => .ok (⟨[]⟩, toks)

/-- `input.peek(kw::returns)`: is the next token the `returns` keyword? -/
def peekReturnsKw : List Tok → Bool
  | .identTok s _ :: _ => s == "returns"
  | _ => false

/-- Modelled from the spec: the returns-clause rule (`Returns::parse`)
consumes the `returns` keyword and a parenthesized typed list. -/
def Returns.parse (toks : List Tok) : ParseResult Returns :=
  match toks with
  | .identTok s sp :: rest =>
    if s = "returns" then
      match rest with
      | .parenTok inner psp :: rest2 =>
        match parseVarDecls inner with
        | .ok ps => .ok (⟨sp, psp, ps⟩, rest2)
        | .error e => .error e
      | _ => .error ⟨"expected parentheses", spanOfHead rest⟩
    else .error ⟨"expected returns", sp⟩
  | _ => .error ⟨"expected returns", spanOfHead toks⟩

/-- The terminating semicolon rule (`Token![;]`). -/
def parseSemi (toks : List Tok) : ParseResult Span :=
  match toks with
  | .semiTok sp :: rest => .ok (sp, rest)
  | _ => .error ⟨"expected semicolon", spanOfHead toks⟩

/-- The inner helper `parse_check_brace` of `ItemFunction::parse`: if
the next token opens a body block, fail with
"functions cannot have an implementation" at the brace; otherwise
delegate to the wrapped rule. -/
def parse_check_brace {α : Type} (p : List Tok → ParseResult α)
    (toks : List Tok) : ParseResult α :=
  if headIsBrace toks then
    .error ⟨"functions cannot have an implementation", spanOfHead toks⟩
  else p toks

/-- The step of `ItemFunction::parse` for the `returns` field: parse a
returns clause if and only if the next token is the `returns` keyword,
otherwise produce `none` without consuming anything. -/
def returnsStep (toks : List Tok) : ParseResult (Option Returns) :=
  if peekReturnsKw toks then
    match Returns.parse toks with
    | .ok (r, rest) => .ok (some r, rest)
    | .error e => .error e
  else .ok (none, toks)

/-- `ItemFunction::parse`: decorators, the `function` keyword, the
name, the parenthesized parameter list, a brace check followed by the
modifier set, an optional returns clause, and a brace check followed by
the terminating semicolon, in strict left-to-right order. -/
def ItemFunction.parse (toks : List Tok) : ParseResult ItemFunction :=
  match parseOuterAttrs toks with
  | .error e => .error e
  | .ok (attrs, t1) =>
    match parseKwFunction t1 with
    | .error e => .error e
    | .ok (fnSp, t2) =>
      match SolIdent.parse t2 with
      | .error e => .error e
      | .ok (name, t3) =>
        match parseParen t3 with
        | .error e => .error e
        | .ok ((inner, parenSp), t4) =>
          match Parameters.parse inner with
          | .error e => .error e
          | .ok args =>
            match parse_check_brace FunctionAttributes.parse t4 with
            | .error e => .error e
            | .ok (fa, t5) =>
              match returnsStep t5 with
              | .error e => .error e
              | .ok (rets, t6) =>
                match parse_check_brace parseSemi t6 with
                | .error e => .error e
                | .ok (semiSp, rest) =>
                  .ok (⟨attrs, fnSp, name, parenSp, args, fa, rets, semiSp⟩, rest)

/-- `ItemFunction::span`: the name's span. -/
def ItemFunction.span (f : ItemFunction) : Span := f.name.span

/-- `ItemFunction::set_span`: rewrites only the name's span. -/
def ItemFunction.set_span (f : ItemFunction) (sp : Span) : ItemFunction :=
  { f with name := f.name.set_span sp }

/-- `ItemFunction::is_void`: true when the function returns nothing. -/
def ItemFunction.is_void (f : ItemFunction) : Bool :=
  match f.returns with
  | none => true
  | some rets => rets.returns.list.isEmpty

mutual

/-- Modelled from the spec: the canonical textual form of a type
(`Type`'s display), as used for ABI-style signature computation;
a tuple renders its element types in parentheses, comma-separated. -/
def SolType.canonical : SolType → String
  | .elementary s => s
  | .tuple ts _ => "(" ++ SolType.canonicalList ts ++ ")"

/-- Comma-joined canonical forms of a list of types. -/
def SolType.canonicalList : List SolType → String
  | [] => ""
  | [t] => SolType.canonical t
  | t :: t2 :: ts => SolType.canonical t ++ "," ++ SolType.canonicalList (t2 :: ts)

end

/-- Modelled from the spec: `Parameters::signature` renders
`name(T1,T2,...)` from the parameter types in order, ignoring the
optional parameter names, with no surrounding whitespace. -/
def Parameters.signature (ps : Parameters) (name : String) : String :=
  name ++ "(" ++ SolType.canonicalList (ps.list.map (fun a => a.ty)) ++ ")"

/-- `ItemFunction::signature`. -/
def ItemFunction.signature (f : ItemFunction) : String :=
  f.arguments.signature f.name.s

/-- Modelled from the spec: collecting an iterator of element types
into a `SolTuple` (`collect::<SolTuple>()`) places separators between
consecutive elements only, so the result has no trailing separator. -/
def SolTuple.fromList (tys : List SolType) : SolTuple := ⟨tys, false⟩

/-- `ItemFunction::call_type`: collect the parameter types into a
tuple, then force a trailing separator when the tuple has exactly one
element and none was present. -/
def ItemFunction.call_type (f : ItemFunction) : SolType :=
  let args := SolTuple.fromList (f.arguments.list.map (fun arg => arg.ty))
  let args :=
    if !args.trailing && args.types.length == 1 then
      { args with trailing := true }
    else args
  .tuple args.types args.trailing


/-! ## Basic facts about the derived queries -/

/-- C3: `is_void()` returns `true` if and only if the `returns` field
is absent (`None`) or present with zero entries, and `false`
otherwise. -/
theorem is_void_iff_no_returns (f : ItemFunction) :
    f.is_void = true ↔
      (f.returns = none ∨ ∃ r, f.returns = some r ∧ r.returns.list = []) := by
  cases h : f.returns with
  | none => simp [ItemFunction.is_void, h]
  | some r => simp [ItemFunction.is_void, h, List.isEmpty_iff]

/-- C6: `span()` returns the name token's span, and `set_span`
(relocation) rewrites only the name's span: afterwards `span()` equals
the new span, the name's text is kept, and every other field —
decorators, the keyword span, the parenthesis span, the parameters,
the modifier set, the returns clause and the terminator span — is
unchanged. -/
theorem set_span_rewrites_only_name_span (f : ItemFunction) (sp : Span) :
    f.span = f.name.span ∧
    (f.set_span sp).span = sp ∧
    (f.set_span sp).name.s = f.name.s ∧
    (f.set_span sp).attrs = f.attrs ∧
    (f.set_span sp).functionSp = f.functionSp ∧
    (f.set_span sp).parenSp = f.parenSp ∧
    (f.set_span sp).arguments = f.arguments ∧
    (f.set_span sp).attributes = f.attributes ∧
    (f.set_span sp).returns = f.returns ∧
    (f.set_span sp).semiSp = f.semiSp := by
  simp [ItemFunction.span, ItemFunction.set_span, SolIdent.span, SolIdent.set_span]

/-- C4: `call_type()` yields the empty tuple type on zero parameters;
a single-element tuple with a forced trailing separator on exactly one
parameter; and, on two or more parameters, the tuple of all parameter
types in order with no trailing separator (none is produced when
collecting the types). -/
theorem call_type_by_arity (f : ItemFunction) :
    (f.arguments.list = [] → f.call_type = .tuple [] false) ∧
    (f.arguments.list.length = 1 →
      f.call_type = .tuple (f.arguments.list.map (fun arg => arg.ty)) true) ∧
    (2 ≤ f.arguments.list.length →
      f.call_type = .tuple (f.arguments.list.map (fun arg => arg.ty)) false) := by
  refine ⟨fun h => ?_, fun h => ?_, fun h => ?_⟩
  · simp [ItemFunction.call_type, SolTuple.fromList, h]
  · simp [ItemFunction.call_type, SolTuple.fromList, h]
  · have h1 : f.arguments.list.length ≠ 1 := by omega
    simp [ItemFunction.call_type, SolTuple.fromList, h1]

/-- Witness for C4: concrete nodes with zero, one and two parameters. -/
theorem call_type_by_arity_witness :
    ItemFunction.call_type ⟨[], 1, ⟨"f", 2⟩, 3, ⟨[], false⟩, ⟨[]⟩, none, 4⟩
      = .tuple [] false ∧
    ItemFunction.call_type
        ⟨[], 1, ⟨"g", 2⟩, 3, ⟨[⟨.elementary "uint256", none⟩], false⟩, ⟨[]⟩, none, 4⟩
      = .tuple [.elementary "uint256"] true ∧
    ItemFunction.call_type
        ⟨[], 1, ⟨"h", 2⟩, 3,
         ⟨[⟨.elementary "uint256", none⟩, ⟨.elementary "bool", none⟩], false⟩,
         ⟨[]⟩, none, 4⟩
      = .tuple [.elementary "uint256", .elementary "bool"] false :=
  ⟨(call_type_by_arity _).1 rfl,
   (call_type_by_arity _).2.1 rfl,
   (call_type_by_arity _).2.2 (by decide)⟩

/-- C9: `call_type()` is always built with the `Tuple` constructor of
the type enum, regardless of the number of parameters. -/
theorem call_type_always_tuple (f : ItemFunction) :
    ∃ ts tr, f.call_type = SolType.tuple ts tr := by
  simp only [ItemFunction.call_type, SolTuple.fromList]
  split <;> exact ⟨_, _, rfl⟩

/-- C10: `call_type()` depends only on the ordered sequence of
parameter types: two nodes whose parameters carry the same types in
the same order have equal `call_type()` results, whatever their names,
decorators, modifiers, returns clauses or spans. -/
theorem call_type_depends_only_on_types (f g : ItemFunction)
    (h : f.arguments.list.map (fun arg => arg.ty)
       = g.arguments.list.map (fun arg => arg.ty)) :
    f.call_type = g.call_type := by
  have hlen : f.arguments.list.length = g.arguments.list.length := by
    simpa using congrArg List.length h
  simp [ItemFunction.call_type, SolTuple.fromList, h, hlen]

/-- Witness for C10: two nodes differing in name, parameter names,
modifiers, returns and spans but with the same parameter types. -/
theorem call_type_depends_only_on_types_witness :
    ItemFunction.call_type
        ⟨[], 1, ⟨"f", 2⟩, 3, ⟨[⟨.elementary "uint256", some ⟨"a", 4⟩⟩], false⟩, ⟨[]⟩, none, 5⟩
      = ItemFunction.call_type
        ⟨[9], 11, ⟨"g", 12⟩, 13, ⟨[⟨.elementary "uint256", none⟩], true⟩,
         ⟨[("external", 14)]⟩, some ⟨15, 16, ⟨[⟨.elementary "bool", none⟩], false⟩⟩, 17⟩ :=
  call_type_depends_only_on_types _ _ rfl

/-- The accumulator of `String.intercalate.go` factors out to the
left. -/
theorem intercalate_go_append (s : String) (l : List String) :
    ∀ acc₁ acc₂, String.intercalate.go (acc₁ ++ acc₂) s l
      = acc₁ ++ String.intercalate.go acc₂ s l := by
  induction l with
  | nil => intro acc₁ acc₂; simp [String.intercalate.go]
  | cons a as ih =>
    intro acc₁ acc₂
    simp only [String.intercalate.go]
    have h : acc₁ ++ acc₂ ++ s ++ a = acc₁ ++ (acc₂ ++ s ++ a) := by
      simp [String.append_assoc]
    rw [h, ih]

/-- `SolType.canonicalList` agrees with comma-`intercalate` of the
canonical forms. -/
theorem canonicalList_eq_intercalate (ts : List SolType) :
    SolType.canonicalList ts = String.intercalate "," (ts.map SolType.canonical) := by
  induction ts with
  | nil => simp [SolType.canonicalList, String.intercalate]
  | cons t ts ih =>
    cases ts with
    | nil =>
      simp [SolType.canonicalList, String.intercalate, String.intercalate.go]
    | cons t2 ts2 =>
      simp only [SolType.canonicalList, List.map_cons, String.intercalate,
        String.intercalate.go] at ih ⊢
      rw [ih, intercalate_go_append "," (List.map SolType.canonical ts2)
            (SolType.canonical t ++ ",") (SolType.canonical t2)]

/-- C2: for every successfully parsed declaration, `signature()` is
`NAME(T1,T2,...)`: the declared name, then the canonical textual
forms of the parameter types (not their optional names) in declaration
order, separated by commas with no surrounding whitespace; in
particular two nodes with the same name and the same parameter types
have the same signature whatever the optional parameter names are. -/
theorem signature_canonical (toks : List Tok) (f : ItemFunction) (rest : List Tok)
    (_h : ItemFunction.parse toks = .ok (f, rest)) :
    f.signature
      = f.name.s ++ "(" ++
          String.intercalate ","
            (f.arguments.list.map (fun arg => SolType.canonical arg.ty)) ++ ")" ∧
    ∀ g : ItemFunction, g.name.s = f.name.s →
      g.arguments.list.map (fun arg => arg.ty)
        = f.arguments.list.map (fun arg => arg.ty) →
      g.signature = f.signature := by
  constructor
  · simp [ItemFunction.signature, Parameters.signature,
      canonicalList_eq_intercalate, List.map_map, Function.comp_def]
  · intro g hg hmap
    simp [ItemFunction.signature, Parameters.signature, hg, hmap]

/-- Witness for C2: `function foo(uint256 a, address b);`. -/
theorem signature_canonical_witness :
    ∃ f rest, ItemFunction.parse
        [.identTok "function" 1, .identTok "foo" 2,
         .parenTok [.tyTok "uint256" 3, .identTok "a" 4, .commaTok 5,
                    .tyTok "address" 6] 7,
         .semiTok 8] = .ok (f, rest) ∧
      (f.signature
        = f.name.s ++ "(" ++
            String.intercalate ","
              (f.arguments.list.map (fun arg => SolType.canonical arg.ty)) ++ ")" ∧
       ∀ g : ItemFunction, g.name.s = f.name.s →
         g.arguments.list.map (fun arg => arg.ty)
           = f.arguments.list.map (fun arg => arg.ty) →
         g.signature = f.signature) :=
  ⟨_, _, rfl,
   signature_canonical
     [.identTok "function" 1, .identTok "foo" 2,
      .parenTok [.tyTok "uint256" 3, .identTok "a" 4, .commaTok 5,
                 .tyTok "address" 6] 7,
      .semiTok 8] _ _ rfl⟩

/-! ## The brace guard -/

/-- Counterexample to the claimed message text: on
`function foo() { }` the parser fails at the brace with the message
"functions cannot have an implementation", which differs from
"declaration cannot have an implementation". -/
theorem implementation_message_counterexample :
    ItemFunction.parse
        [.identTok "function" 1, .identTok "foo" 2, .parenTok [] 3, .braceTok [] 4]
      = .error ⟨"functions cannot have an implementation", 4⟩ ∧
    "functions cannot have an implementation"
      ≠ "declaration cannot have an implementation" :=
  ⟨rfl, by decide⟩

/-- C1 (amended): whenever a body-opening brace stands where the
modifier set is expected, or where the terminating semicolon is
expected, parsing fails with the message
"functions cannot have an implementation" and a span pointing at the
brace (the span of the stream head, which is the brace). -/
theorem implementation_brace_error (toks : List Tok) :
    (∀ attrs t1 fnSp t2 nm t3 inner psp t4 args,
      parseOuterAttrs toks = .ok (attrs, t1) →
      parseKwFunction t1 = .ok (fnSp, t2) →
      SolIdent.parse t2 = .ok (nm, t3) →
      parseParen t3 = .ok ((inner, psp), t4) →
      Parameters.parse inner = .ok args →
      headIsBrace t4 = true →
      ItemFunction.parse toks
        = .error ⟨"functions cannot have an implementation", spanOfHead t4⟩) ∧
    (∀ attrs t1 fnSp t2 nm t3 inner psp t4 args fa t5 rets t6,
      parseOuterAttrs toks = .ok (attrs, t1) →
      parseKwFunction t1 = .ok (fnSp, t2) →
      SolIdent.parse t2 = .ok (nm, t3) →
      parseParen t3 = .ok ((inner, psp), t4) →
      Parameters.parse inner = .ok args →
      parse_check_brace FunctionAttributes.parse t4 = .ok (fa, t5) →
      returnsStep t5 = .ok (rets, t6) →
      headIsBrace t6 = true →
      ItemFunction.parse toks
        = .error ⟨"functions cannot have an implementation", spanOfHead t6⟩) := by
  constructor
  · intro attrs t1 fnSp t2 nm t3 inner psp t4 args h1 h2 h3 h4 h5 h6
    simp only [ItemFunction.parse, h1, h2, h3, h4, h5]
    simp [parse_check_brace, h6]
  · intro attrs t1 fnSp t2 nm t3 inner psp t4 args fa t5 rets t6
      h1 h2 h3 h4 h5 h6 h7 h8
    simp only [ItemFunction.parse, h1, h2, h3, h4, h5, h6, h7]
    simp [parse_check_brace, h8]

/-- Witness for the amended C1: a brace in place of the modifier set
(`function foo() { }`) and a brace in place of the semicolon
(`function foo() external { }`). -/
theorem implementation_brace_error_witness :
    ItemFunction.parse
        [.identTok "function" 10, .identTok "foo" 11, .parenTok [] 12, .braceTok [] 13]
      = .error ⟨"functions cannot have an implementation", 13⟩ ∧
    ItemFunction.parse
        [.identTok "function" 20, .identTok "foo" 21, .parenTok [] 22,
         .identTok "external" 23, .braceTok [] 24]
      = .error ⟨"functions cannot have an implementation", 24⟩ :=
  ⟨(implementation_brace_error
      [.identTok "function" 10, .identTok "foo" 11, .parenTok [] 12,
       .braceTok [] 13]).1 _ _ _ _ _ _ _ _ _ _
     rfl rfl rfl rfl rfl rfl,
   (implementation_brace_error
      [.identTok "function" 20, .identTok "foo" 21, .parenTok [] 22,
       .identTok "external" 23, .braceTok [] 24]).2 _ _ _ _ _ _ _ _ _ _ _ _ _ _
     rfl rfl rfl rfl rfl rfl rfl rfl⟩

/-! ## Sequencing, fail-fast behaviour and error propagation -/

/-- The spec's failure semantics, stated as its own definition: the
syntax error of the first sub-rule or explicit check that fails during
the left-to-right sequencing, returned unchanged; `none` when every
step succeeds.  Compared against `ItemFunction.parse` below. -/
def specFirstFailure (toks : List Tok) : Option SynError :=
  match parseOuterAttrs toks with
  | .error e => some e
  | .ok (_, t1) =>
    match parseKwFunction t1 with
    | .error e => some e
    | .ok (_, t2) =>
      match SolIdent.parse t2 with
      | .error e => some e
      | .ok (_, t3) =>
        match parseParen t3 with
        | .error e => some e
        | .ok ((inner, _), t4) =>
          match Parameters.parse inner with
          | .error e => some e
          | .ok _ =>
            match parse_check_brace FunctionAttributes.parse t4 with
            | .error e => some e
            | .ok (_, t5) =>
              match returnsStep t5 with
              | .error e => some e
              | .ok (_, t6) =>
                match parse_check_brace parseSemi t6 with
                | .error e => some e
                | .ok _ => none

/-- The decorator-list rule always succeeds. -/
theorem parseOuterAttrs_total (toks : List Tok) :
    ∃ a r, parseOuterAttrs toks = .ok (a, r) := by
  induction toks with
  | nil => exact ⟨[], [], rfl⟩
  | cons t ts ih =>
    cases t with
    | attrTok sp =>
      obtain ⟨a, r, h⟩ := ih
      exact ⟨sp :: a, r, by simp [parseOuterAttrs, h]⟩
    | identTok s sp => exact ⟨[], _, rfl⟩
    | tyTok s sp => exact ⟨[], _, rfl⟩
    | parenTok inner sp => exact ⟨[], _, rfl⟩
    | braceTok inner sp => exact ⟨[], _, rfl⟩
    | commaTok sp => exact ⟨[], _, rfl⟩
    | semiTok sp => exact ⟨[], _, rfl⟩

/-- The modifier-set rule always succeeds. -/
theorem FunctionAttributes_parse_total (toks : List Tok) :
    ∃ fa r, FunctionAttributes.parse toks = .ok (fa, r) := by
  induction toks with
  | nil => exact ⟨⟨[]⟩, [], rfl⟩
  | cons t ts ih =>
    cases t with
    | identTok s sp =>
      by_cases hs : s ∈ modifierKws
      · obtain ⟨fa, r, h⟩ := ih
        exact ⟨⟨(s, sp) :: fa.mods⟩, r, by simp [FunctionAttributes.parse, hs, h]⟩
      · exact ⟨⟨[]⟩, .identTok s sp :: ts, by simp [FunctionAttributes.parse, hs]⟩
    | attrTok sp => exact ⟨⟨[]⟩, _, rfl⟩
    | tyTok s sp => exact ⟨⟨[]⟩, _, rfl⟩
    | parenTok inner sp => exact ⟨⟨[]⟩, _, rfl⟩
    | braceTok inner sp => exact ⟨⟨[]⟩, _, rfl⟩
    | commaTok sp => exact ⟨⟨[]⟩, _, rfl⟩
    | semiTok sp => exact ⟨⟨[]⟩, _, rfl⟩

/-- The decorator rule only consumes from the front: its leftover is a
suffix of its input. -/
theorem parseOuterAttrs_suffix (toks : List Tok) :
    ∀ a r, parseOuterAttrs toks = .ok (a, r) → r.IsSuffix toks := by
  induction toks with
  | nil =>
    intro a r h
    simp [parseOuterAttrs] at h
    rw [← h.2]
  | cons t ts ih =>
    intro a r h
    cases t
    case attrTok sp =>
      cases h2 : parseOuterAttrs ts with
      | error e => simp [parseOuterAttrs, h2] at h
      | ok p =>
        obtain ⟨sps, r2⟩ := p
        simp [parseOuterAttrs, h2] at h
        rw [← h.2]
        exact (ih _ _ h2).trans (List.suffix_cons _ _)
    all_goals (simp [parseOuterAttrs] at h; rw [← h.2])

/-- The keyword rule consumes one token on success. -/
theorem parseKwFunction_suffix (toks : List Tok) (x : Span) (r : List Tok)
    (h : parseKwFunction toks = .ok (x, r)) : r.IsSuffix toks := by
  cases toks with
  | nil => simp [parseKwFunction] at h
  | cons t ts =>
    cases t
    case identTok s sp =>
      simp only [parseKwFunction] at h
      split at h
      · simp at h; rw [← h.2]; exact List.suffix_cons _ _
      · simp at h
    all_goals simp [parseKwFunction] at h

/-- The identifier rule consumes one token on success. -/
theorem SolIdent_parse_suffix (toks : List Tok) (x : SolIdent) (r : List Tok)
    (h : SolIdent.parse toks = .ok (x, r)) : r.IsSuffix toks := by
  cases toks with
  | nil => simp [SolIdent.parse] at h
  | cons t ts =>
    cases t
    case identTok s sp =>
      simp [SolIdent.parse] at h
      rw [← h.2]; exact List.suffix_cons _ _
    all_goals simp [SolIdent.parse] at h

/-- The parenthesized-group rule consumes one token on success. -/
theorem parseParen_suffix (toks : List Tok) (x : List Tok × Span) (r : List Tok)
    (h : parseParen toks = .ok (x, r)) : r.IsSuffix toks := by
  cases toks with
  | nil => simp [parseParen] at h
  | cons t ts =>
    cases t
    case parenTok inner sp =>
      simp [parseParen] at h
      rw [← h.2]; exact List.suffix_cons _ _
    all_goals simp [parseParen] at h

/-- The semicolon rule consumes one token on success. -/
theorem parseSemi_suffix (toks : List Tok) (x : Span) (r : List Tok)
    (h : parseSemi toks = .ok (x, r)) : r.IsSuffix toks := by
  cases toks with
  | nil => simp [parseSemi] at h
  | cons t ts =>
    cases t
    case semiTok sp =>
      simp [parseSemi] at h
      rw [← h.2]; exact List.suffix_cons _ _
    all_goals simp [parseSemi] at h

/-- The modifier-set rule only consumes from the front. -/
theorem FunctionAttributes_parse_suffix (toks : List Tok) :
    ∀ fa r, FunctionAttributes.parse toks = .ok (fa, r) → r.IsSuffix toks := by
  induction toks with
  | nil =>
    intro fa r h
    simp [FunctionAttributes.parse] at h
    rw [← h.2]
  | cons t ts ih =>
    intro fa r h
    cases t
    case identTok s sp =>
      by_cases hs : s ∈ modifierKws
      · cases h2 : FunctionAttributes.parse ts with
        | error e => simp [FunctionAttributes.parse, hs, h2] at h
        | ok p =>
          obtain ⟨fa2, r2⟩ := p
          simp [FunctionAttributes.parse, hs, h2] at h
          rw [← h.2]
          exact (ih _ _ h2).trans (List.suffix_cons _ _)
      · simp [FunctionAttributes.parse, hs] at h
        rw [← h.2]
    all_goals (simp [FunctionAttributes.parse] at h; rw [← h.2])

/-- The returns-clause rule only consumes from the front. -/
theorem Returns_parse_suffix (toks : List Tok) (x : Returns) (r : List Tok)
    (h : Returns.parse toks = .ok (x, r)) : r.IsSuffix toks := by
  cases toks with
  | nil => simp [Returns.parse] at h
  | cons t ts =>
    cases t
    case identTok s sp =>
      simp only [Returns.parse] at h
      split at h
      · cases ts with
        | nil => simp at h
        | cons t2 ts2 =>
          cases t2
          case parenTok inner psp =>
            cases h5 : parseVarDecls inner with
            | error e => simp [h5] at h
            | ok ps =>
              simp [h5] at h
              rw [← h.2]
              exact (List.suffix_cons _ _).trans (List.suffix_cons _ _)
          all_goals simp at h
      · simp at h
    all_goals simp [Returns.parse] at h

/-- A successful `parse_check_brace` means the head is not a brace and
the wrapped rule succeeded with the same result. -/
theorem parse_check_brace_ok {α : Type} (p : List Tok → ParseResult α)
    (toks : List Tok) (x : α) (r : List Tok)
    (h : parse_check_brace p toks = .ok (x, r)) :
    headIsBrace toks = false ∧ p toks = .ok (x, r) := by
  unfold parse_check_brace at h
  split at h
  · simp at h
  · next hb => exact ⟨by simpa using hb, h⟩

/-- A successful `returnsStep` either parsed a clause (when the
`returns` keyword was next) or consumed nothing. -/
theorem returnsStep_ok (toks : List Tok) (o : Option Returns) (r : List Tok)
    (h : returnsStep toks = .ok (o, r)) :
    (peekReturnsKw toks = true ∧
      ∃ ret, o = some ret ∧ Returns.parse toks = .ok (ret, r)) ∨
    (peekReturnsKw toks = false ∧ o = none ∧ r = toks) := by
  unfold returnsStep at h
  split at h
  · next hp =>
    left
    refine ⟨hp, ?_⟩
    cases h2 : Returns.parse toks with
    | error e => rw [h2] at h; simp at h
    | ok p =>
      obtain ⟨ret, rest2⟩ := p
      rw [h2] at h
      simp at h
      obtain ⟨ho, hr⟩ := h
      subst hr
      refine ⟨ret, ?_, rfl⟩
      first
      | exact ho
      | exact ho.symm
  · next hp => right; simp at h; exact ⟨by simpa using hp, h.1.symm, h.2.symm⟩

/-- `returnsStep` only consumes from the front. -/
theorem returnsStep_suffix (toks : List Tok) (o : Option Returns) (r : List Tok)
    (h : returnsStep toks = .ok (o, r)) : r.IsSuffix toks := by
  rcases returnsStep_ok toks o r h with ⟨_, ret, _, h2⟩ | ⟨_, _, h2⟩
  · exact Returns_parse_suffix toks ret r h2
  · rw [h2]

/-- C5: `parse` consumes the input strictly left to right with no
backtracking: the decorators, the `function` keyword, the identifier,
the parenthesized parameter list (whose interior becomes the
parameters), a brace check followed by the modifier set, a returns
clause if and only if the next token is then the `returns` keyword
(otherwise `returns = none`), and a brace check followed by the
terminating semicolon; every intermediate stream is a suffix of the
previous one (the cursor only moves forward). -/
theorem parse_left_to_right (toks : List Tok) (f : ItemFunction) (rest : List Tok)
    (h : ItemFunction.parse toks = .ok (f, rest)) :
    ∃ t1 t2 t3 inner t4 t5 t6,
      parseOuterAttrs toks = .ok (f.attrs, t1) ∧
      parseKwFunction t1 = .ok (f.functionSp, t2) ∧
      SolIdent.parse t2 = .ok (f.name, t3) ∧
      parseParen t3 = .ok ((inner, f.parenSp), t4) ∧
      Parameters.parse inner = .ok f.arguments ∧
      headIsBrace t4 = false ∧
      FunctionAttributes.parse t4 = .ok (f.attributes, t5) ∧
      (peekReturnsKw t5 = true →
        ∃ ret, f.returns = some ret ∧ Returns.parse t5 = .ok (ret, t6)) ∧
      (peekReturnsKw t5 = false → f.returns = none ∧ t6 = t5) ∧
      headIsBrace t6 = false ∧
      parseSemi t6 = .ok (f.semiSp, rest) ∧
      t1.IsSuffix toks ∧ t2.IsSuffix t1 ∧ t3.IsSuffix t2 ∧ t4.IsSuffix t3 ∧
      t5.IsSuffix t4 ∧ t6.IsSuffix t5 ∧ rest.IsSuffix t6 ∧ rest.IsSuffix toks := by
  unfold ItemFunction.parse at h
  cases h1 : parseOuterAttrs toks with
  | error e => rw [h1] at h; simp at h
  | ok p1 =>
  obtain ⟨attrs, t1⟩ := p1
  rw [h1] at h
  simp only [] at h
  cases h2 : parseKwFunction t1 with
  | error e => rw [h2] at h; simp at h
  | ok p2 =>
  obtain ⟨fnSp, t2⟩ := p2
  rw [h2] at h
  simp only [] at h
  cases h3 : SolIdent.parse t2 with
  | error e => rw [h3] at h; simp at h
  | ok p3 =>
  obtain ⟨nm, t3⟩ := p3
  rw [h3] at h
  simp only [] at h
  cases h4 : parseParen t3 with
  | error e => rw [h4] at h; simp at h
  | ok p4 =>
  obtain ⟨⟨inner, psp⟩, t4⟩ := p4
  rw [h4] at h
  simp only [] at h
  cases h5 : Parameters.parse inner with
  | error e => rw [h5] at h; simp at h
  | ok args =>
  rw [h5] at h
  simp only [] at h
  cases h6 : parse_check_brace FunctionAttributes.parse t4 with
  | error e => rw [h6] at h; simp at h
  | ok p6 =>
  obtain ⟨fa, t5⟩ := p6
  rw [h6] at h
  simp only [] at h
  cases h7 : returnsStep t5 with
  | error e => rw [h7] at h; simp at h
  | ok p7 =>
  obtain ⟨rets, t6⟩ := p7
  rw [h7] at h
  simp only [] at h
  cases h8 : parse_check_brace parseSemi t6 with
  | error e => rw [h8] at h; simp at h
  | ok p8 =>
  obtain ⟨semiSp, rest0⟩ := p8
  rw [h8] at h
  simp only [] at h
  simp at h
  obtain ⟨hf, hr⟩ := h
  subst hr
  subst hf
  dsimp only
  obtain ⟨hb4, h6p⟩ := parse_check_brace_ok _ _ _ _ h6
  obtain ⟨hb6, h8p⟩ := parse_check_brace_ok _ _ _ _ h8
  have s1 := parseOuterAttrs_suffix toks _ _ h1
  have s2 := parseKwFunction_suffix t1 _ _ h2
  have s3 := SolIdent_parse_suffix t2 _ _ h3
  have s4 := parseParen_suffix t3 _ _ h4
  have s5 := FunctionAttributes_parse_suffix t4 _ _ h6p
  have s6 := returnsStep_suffix t5 _ _ h7
  have s7 := parseSemi_suffix t6 _ _ h8p
  refine ⟨t1, t2, t3, inner, t4, t5, t6, rfl, h2, h3, h4, h5, hb4, h6p, ?_, ?_,
    hb6, h8p, s1, s2, s3, s4, s5, s6, s7,
    s7.trans (s6.trans (s5.trans (s4.trans (s3.trans (s2.trans s1)))))⟩
  · intro hp
    rcases returnsStep_ok t5 _ _ h7 with ⟨_, ret, ho, hparse⟩ | ⟨hp2, _, _⟩
    · exact ⟨ret, by simp [ho], hparse⟩
    · rw [hp] at hp2; cases hp2
  · intro hp
    rcases returnsStep_ok t5 _ _ h7 with ⟨hp2, _⟩ | ⟨_, ho, ht⟩
    · rw [hp] at hp2; cases hp2
    · exact ⟨by simp [ho], ht⟩

/-- Witness for C5:
`#[..] function foo(uint256) external returns(bool);`. -/
theorem parse_left_to_right_witness :
    ∃ f rest,
      ItemFunction.parse
          [.attrTok 0, .identTok "function" 1, .identTok "foo" 2,
           .parenTok [.tyTok "uint256" 3] 4, .identTok "external" 5,
           .identTok "returns" 6, .parenTok [.tyTok "bool" 7] 8, .semiTok 9]
        = .ok (f, rest) ∧
      (∃ t1 t2 t3 inner t4 t5 t6,
        parseOuterAttrs
            [.attrTok 0, .identTok "function" 1, .identTok "foo" 2,
             .parenTok [.tyTok "uint256" 3] 4, .identTok "external" 5,
             .identTok "returns" 6, .parenTok [.tyTok "bool" 7] 8, .semiTok 9]
          = .ok (f.attrs, t1) ∧
        parseKwFunction t1 = .ok (f.functionSp, t2) ∧
        SolIdent.parse t2 = .ok (f.name, t3) ∧
        parseParen t3 = .ok ((inner, f.parenSp), t4) ∧
        Parameters.parse inner = .ok f.arguments ∧
        headIsBrace t4 = false ∧
        FunctionAttributes.parse t4 = .ok (f.attributes, t5) ∧
        (peekReturnsKw t5 = true →
          ∃ ret, f.returns = some ret ∧ Returns.parse t5 = .ok (ret, t6)) ∧
        (peekReturnsKw t5 = false → f.returns = none ∧ t6 = t5) ∧
        headIsBrace t6 = false ∧
        parseSemi t6 = .ok (f.semiSp, rest) ∧
        t1.IsSuffix
          [.attrTok 0, .identTok "function" 1, .identTok "foo" 2,
           .parenTok [.tyTok "uint256" 3] 4, .identTok "external" 5,
           .identTok "returns" 6, .parenTok [.tyTok "bool" 7] 8, .semiTok 9] ∧
        t2.IsSuffix t1 ∧ t3.IsSuffix t2 ∧ t4.IsSuffix t3 ∧
        t5.IsSuffix t4 ∧ t6.IsSuffix t5 ∧ rest.IsSuffix t6 ∧
        rest.IsSuffix
          [.attrTok 0, .identTok "function" 1, .identTok "foo" 2,
           .parenTok [.tyTok "uint256" 3] 4, .identTok "external" 5,
           .identTok "returns" 6, .parenTok [.tyTok "bool" 7] 8, .semiTok 9]) :=
  ⟨_, _, rfl,
   parse_left_to_right
     [.attrTok 0, .identTok "function" 1, .identTok "foo" 2,
      .parenTok [.tyTok "uint256" 3] 4, .identTok "external" 5,
      .identTok "returns" 6, .parenTok [.tyTok "bool" 7] 8, .semiTok 9] _ _ rfl⟩

/-- Every top-level parse error is exactly the error of the first
failing sub-rule or explicit check, returned unchanged. -/
theorem parse_error_char (toks : List Tok) (e : SynError) :
    ItemFunction.parse toks = .error e ↔ specFirstFailure toks = some e := by
  unfold ItemFunction.parse specFirstFailure
  cases h1 : parseOuterAttrs toks with
  | error e1 => simp
  | ok p1 =>
  obtain ⟨a1, t1⟩ := p1
  simp only []
  cases h2 : parseKwFunction t1 with
  | error e2 => simp
  | ok p2 =>
  obtain ⟨fnSp, t2⟩ := p2
  simp only []
  cases h3 : SolIdent.parse t2 with
  | error e3 => simp
  | ok p3 =>
  obtain ⟨nm, t3⟩ := p3
  simp only []
  cases h4 : parseParen t3 with
  | error e4 => simp
  | ok p4 =>
  obtain ⟨⟨inner, psp⟩, t4⟩ := p4
  simp only []
  cases h5 : Parameters.parse inner with
  | error e5 => simp
  | ok args =>
  simp only []
  cases h6 : parse_check_brace FunctionAttributes.parse t4 with
  | error e6 => simp
  | ok p6 =>
  obtain ⟨fa, t5⟩ := p6
  simp only []
  cases h7 : returnsStep t5 with
  | error e7 => simp
  | ok p7 =>
  obtain ⟨rets, t6⟩ := p7
  simp only []
  cases h8 : parse_check_brace parseSemi t6 with
  | error e8 => simp
  | ok p8 =>
  obtain ⟨semiSp, rest0⟩ := p8
  simp

/-- C7: parsing is fail-fast and non-recovering: for every input the
parser returns either a node or a single syntax error, which is
exactly the error of the first failing sub-rule or explicit check,
propagated unchanged; no partial node exists (success and failure are
mutually exclusive by construction). -/
theorem parse_fail_fast (toks : List Tok) :
    (∀ e, ItemFunction.parse toks = .error e ↔ specFirstFailure toks = some e) ∧
    ((∃ f rest, ItemFunction.parse toks = .ok (f, rest))
      ↔ specFirstFailure toks = none) := by
  constructor
  · exact fun e => parse_error_char toks e
  · constructor
    · rintro ⟨f, rest, h⟩
      cases hs : specFirstFailure toks with
      | none => rfl
      | some e =>
        have h2 := (parse_error_char toks e).mpr hs
        rw [h] at h2
        simp at h2
    · intro hs
      cases hp : ItemFunction.parse toks with
      | error e =>
        have h2 := (parse_error_char toks e).mp hp
        rw [hs] at h2
        simp at h2
      | ok p => exact ⟨p.1, p.2, rfl⟩

/-- Keyword-rule errors carry the message "expected function". -/
theorem parseKwFunction_error_msg (toks : List Tok) (e : SynError)
    (h : parseKwFunction toks = .error e) : e.msg = "expected function" := by
  unfold parseKwFunction at h
  split at h
  · split at h
    · simp at h
    · simp at h; subst h; rfl
  · simp at h; subst h; rfl

/-- Identifier-rule errors carry the message "expected identifier". -/
theorem SolIdent_parse_error_msg (toks : List Tok) (e : SynError)
    (h : SolIdent.parse toks = .error e) : e.msg = "expected identifier" := by
  unfold SolIdent.parse at h
  split at h
  · simp at h
  · simp at h; subst h; rfl

/-- Parenthesis-rule errors carry the message "expected parentheses". -/
theorem parseParen_error_msg (toks : List Tok) (e : SynError)
    (h : parseParen toks = .error e) : e.msg = "expected parentheses" := by
  unfold parseParen at h
  split at h
  · simp at h
  · simp at h; subst h; rfl

/-- Semicolon-rule errors carry the message "expected semicolon". -/
theorem parseSemi_error_msg (toks : List Tok) (e : SynError)
    (h : parseSemi toks = .error e) : e.msg = "expected semicolon" := by
  unfold parseSemi at h
  split at h
  · simp at h
  · simp at h; subst h; rfl

/-- Parameter-list errors are "expected type" or "expected comma". -/
theorem parseVarDecls_error_msg (inner : List Tok) :
    ∀ e, parseVarDecls inner = .error e →
      e.msg = "expected type" ∨ e.msg = "expected comma" := by
  induction inner using parseVarDecls.induct <;> intro e h <;>
    simp [parseVarDecls] at h
  all_goals
    first
    | (subst h; simp)
    | (rename_i v hrec hne ih
       rw [hrec] at h
       simp at h
       subst h
       exact ih _ hrec)
    | (rename_i v hrec hne ih
       rw [hrec] at h
       simp at h)

/-- Returns-clause errors carry one of the delegated "expected X"
messages. -/
theorem Returns_parse_error_msg (toks : List Tok) (e : SynError)
    (h : Returns.parse toks = .error e) :
    e.msg = "expected returns" ∨ e.msg = "expected parentheses" ∨
      e.msg = "expected type" ∨ e.msg = "expected comma" := by
  unfold Returns.parse at h
  split at h
  · split at h
    · split at h
      · split at h
        · simp at h
        · rename_i e2 hrec
          simp at h
          subst h
          have h3 := parseVarDecls_error_msg _ _ hrec
          tauto
      · simp at h; subst h; simp
    · simp at h; subst h; simp
  · simp at h; subst h; simp

/-- `returnsStep` errors carry one of the delegated messages. -/
theorem returnsStep_error_msg (toks : List Tok) (e : SynError)
    (h : returnsStep toks = .error e) :
    e.msg = "expected returns" ∨ e.msg = "expected parentheses" ∨
      e.msg = "expected type" ∨ e.msg = "expected comma" := by
  unfold returnsStep at h
  split at h
  · cases h2 : Returns.parse toks with
    | error e2 =>
      rw [h2] at h; simp at h; subst h
      exact Returns_parse_error_msg _ _ h2
    | ok p => rw [h2] at h; simp at h
  · simp at h

/-- A `parse_check_brace` error is the brace diagnostic or the wrapped
rule's own error, unchanged. -/
theorem parse_check_brace_error {α : Type} (p : List Tok → ParseResult α)
    (toks : List Tok) (e : SynError)
    (h : parse_check_brace p toks = .error e) :
    e.msg = "functions cannot have an implementation" ∨ p toks = .error e := by
  unfold parse_check_brace at h
  split at h
  · simp at h; subst h; left; rfl
  · right; exact h

/-- C8: a failure to consume the `function` keyword after the leading
decorators is distinguishable from every hard error raised at a later
position: among all parse errors, exactly those whose message is
"expected function" are keyword-stage failures (every later stage
produces a different message). -/
theorem function_keyword_failure_distinguishable (toks : List Tok) (e : SynError)
    (h : ItemFunction.parse toks = .error e) :
    e.msg = "expected function" ↔
      ∃ attrs t1, parseOuterAttrs toks = .ok (attrs, t1) ∧
        parseKwFunction t1 = .error e := by
  obtain ⟨a1, t1, h1⟩ := parseOuterAttrs_total toks
  cases h2 : parseKwFunction t1 with
  | error e2 =>
    have hp : ItemFunction.parse toks = .error e2 := by
      simp only [ItemFunction.parse, h1, h2]
    rw [hp] at h
    simp at h
    subst h
    constructor
    · intro _
      exact ⟨a1, t1, h1, h2⟩
    · intro _
      exact parseKwFunction_error_msg _ _ h2
  | ok p2 =>
    obtain ⟨fnSp, t2⟩ := p2
    constructor
    · intro hmsg
      exfalso
      cases h3 : SolIdent.parse t2 with
      | error e3 =>
        have hp : ItemFunction.parse toks = .error e3 := by
          simp only [ItemFunction.parse, h1, h2, h3]
        rw [hp] at h
        simp at h
        subst h
        have hm := SolIdent_parse_error_msg _ _ h3
        rw [hmsg] at hm
        exact absurd hm (by decide)
      | ok p3 =>
      obtain ⟨nm, t3⟩ := p3
      cases h4 : parseParen t3 with
      | error e4 =>
        have hp : ItemFunction.parse toks = .error e4 := by
          simp only [ItemFunction.parse, h1, h2, h3, h4]
        rw [hp] at h
        simp at h
        subst h
        have hm := parseParen_error_msg _ _ h4
        rw [hmsg] at hm
        exact absurd hm (by decide)
      | ok p4 =>
      obtain ⟨⟨inner, psp⟩, t4⟩ := p4
      cases h5 : Parameters.parse inner with
      | error e5 =>
        have hp : ItemFunction.parse toks = .error e5 := by
          simp only [ItemFunction.parse, h1, h2, h3, h4, h5]
        rw [hp] at h
        simp at h
        subst h
        rcases parseVarDecls_error_msg _ _ h5 with hm | hm <;>
          rw [hmsg] at hm <;> exact absurd hm (by decide)
      | ok args =>
      cases h6 : parse_check_brace FunctionAttributes.parse t4 with
      | error e6 =>
        have hp : ItemFunction.parse toks = .error e6 := by
          simp only [ItemFunction.parse, h1, h2, h3, h4, h5, h6]
        rw [hp] at h
        simp at h
        subst h
        rcases parse_check_brace_error _ _ _ h6 with hm | hfe
        · rw [hmsg] at hm
          exact absurd hm (by decide)
        · obtain ⟨fa0, r0, hfa⟩ := FunctionAttributes_parse_total t4
          rw [hfa] at hfe
          simp at hfe
      | ok p6 =>
      obtain ⟨fa, t5⟩ := p6
      cases h7 : returnsStep t5 with
      | error e7 =>
        have hp : ItemFunction.parse toks = .error e7 := by
          simp only [ItemFunction.parse, h1, h2, h3, h4, h5, h6, h7]
        rw [hp] at h
        simp at h
        subst h
        rcases returnsStep_error_msg _ _ h7 with hm | hm | hm | hm <;>
          rw [hmsg] at hm <;> exact absurd hm (by decide)
      | ok p7 =>
      obtain ⟨rets, t6⟩ := p7
      cases h8 : parse_check_brace parseSemi t6 with
      | error e8 =>
        have hp : ItemFunction.parse toks = .error e8 := by
          simp only [ItemFunction.parse, h1, h2, h3, h4, h5, h6, h7, h8]
        rw [hp] at h
        simp at h
        subst h
        rcases parse_check_brace_error _ _ _ h8 with hm | hse
        · rw [hmsg] at hm
          exact absurd hm (by decide)
        · have hm := parseSemi_error_msg _ _ hse
          rw [hmsg] at hm
          exact absurd hm (by decide)
      | ok p8 =>
      obtain ⟨semiSp, rest0⟩ := p8
      have hp : ItemFunction.parse toks
          = .ok (⟨a1, fnSp, nm, psp, args, fa, rets, semiSp⟩, rest0) := by
        simp only [ItemFunction.parse, h1, h2, h3, h4, h5, h6, h7, h8]
      rw [hp] at h
      simp at h
    · rintro ⟨attrs2, t12, h12, h22⟩
      rw [h1] at h12
      simp at h12
      obtain ⟨ha, ht⟩ := h12
      subst ht
      rw [h2] at h22
      simp at h22

/-- Witness for C8: on `;` alone, the keyword stage fails and the
error message is "expected function". -/
theorem function_keyword_failure_distinguishable_witness :
    (SynError.msg ⟨"expected function", 5⟩ = "expected function" ↔
      ∃ attrs t1, parseOuterAttrs [Tok.semiTok 5] = .ok (attrs, t1) ∧
        parseKwFunction t1 = .error ⟨"expected function", 5⟩) :=
  function_keyword_failure_distinguishable [Tok.semiTok 5]
    ⟨"expected function", 5⟩ rfl
